import Mathlib

/-!
Verification development for the `tgen` dialogue-act-to-tree generator.

The repository ships a single driver module, `tgen/tgen.py`, which wires
together a candidate generator, rankers, planners and evaluation helpers.
The driver itself (option parsing, argument-count checks, the generation
and evaluation loops, the action dispatch in `__main__`) is embedded here
directly from its source.  The collaborator modules it imports
(`planner`, `eval`, `futil`, ...) are not part of the repository tree, so
the definitions that stand in for them are modelled from the project
specification and are marked as such in their doc comments.

Conventions of the shallow embedding:
* label bundles are abstracted to `ℕ` (the core only needs equality);
* a dialogue act is the list of its still-unrealized slots (`List ℕ`);
* probabilities / scores are rationals (`ℚ`);
* fallible library calls return `Except String`;
* the unbounded search loop takes an explicit fuel argument.
-/

namespace TGen

/-- A rooted ordered tree with a label bundle at every node (the
`SyntaxTree` of the data model; child order is the list order). -/
inductive Tree where
  | node : ℕ → List Tree → Tree

/-- A dialogue act, abstracted to the list of its not-yet-realized slots. -/
abbrev DA := List ℕ

/-- Sentinel parent label used for the root node's (label, parent) pair. -/
def sentinelParent : ℕ := 0

mutual

/-- Modelled from the spec: the set of (label bundle, parent-label-bundle)
pairs of a tree, as used by `eval.tp_fp_fn` (module `eval` is not in the
repository tree).  `treePairs p t` lists the pairs of `t` when the parent
of its root carries label `p`. -/
def treePairs : ℕ → Tree → List (ℕ × ℕ)
  | p, .node l cs => (l, p) :: treePairsL l cs

/-- Pair lists of a list of sibling subtrees whose parent carries label `p`. -/
def treePairsL : ℕ → List Tree → List (ℕ × ℕ)
  | _, [] => []
  | p, t :: ts => treePairs p t ++ treePairsL p ts

end

/-- The (label, parent-label) pair set of a tree. -/
def treePairSet (t : Tree) : Finset (ℕ × ℕ) :=
  (treePairs sentinelParent t).toFinset

/-- Modelled from the spec: `eval.tp_fp_fn(gold_tree, generated_tree)`
(module `eval` is not in the repository tree) counts true positives,
false positives and false negatives by viewing each tree as a set of
(label bundle, parent-label-bundle) pairs and intersecting the generated
set against the gold set. -/
def tp_fp_fn (gold_tree gen_tree : Tree) : ℕ × ℕ × ℕ :=
  let G := treePairSet gold_tree
  let P := treePairSet gen_tree
  ((P ∩ G).card, (P \ G).card, (G \ P).card)

/-- Modelled from the spec: `eval.p_r_f1_from_counts(correct, gold, predicted)`
(module `eval` is not in the repository tree).  The driver passes the
accumulated true positives as `correct`, the accumulated third components
of `tp_fp_fn` as `gold` and the accumulated second components as
`predicted`; precision and recall are the standard ratios, F1 is defined
as 0 when precision and recall are both 0 and as 1 when gold and
predicted sets are both empty. -/
def p_r_f1_from_counts (c g p : ℕ) : ℚ × ℚ × ℚ :=
  if c = 0 ∧ g = 0 ∧ p = 0 then (1, 1, 1)
  else
    let prec : ℚ := (c : ℚ) / ((c : ℚ) + (p : ℚ))
    let recl : ℚ := (c : ℚ) / ((c : ℚ) + (g : ℚ))
    (prec, recl, if prec + recl = 0 then 0 else 2 * prec * recl / (prec + recl))

/-- Modelled from the spec: `eval.f1_from_counts(c, p, g)` (module `eval`
is not in the repository tree), the F1 score derived from the three
`tp_fp_fn` counts, with the same boundary conventions. -/
def f1_from_counts (c p g : ℕ) : ℚ :=
  (p_r_f1_from_counts c g p).2.2

/-- The F1 score of one `tp_fp_fn` triple, as used by the key function of
the `max` call in `sample_gen` (tgen.py line 172). -/
def f1c (t : ℕ × ℕ × ℕ) : ℚ :=
  f1_from_counts t.1 t.2.1 t.2.2

/-- Modelled from the spec: `futil.chunk_list(xs, n)` (module `futil` is
not in the repository tree) splits a list into consecutive chunks of
length `n`, the last chunk possibly shorter.  The degenerate `n = 0` case
never arises in the driver. -/
def chunk_list {α : Type} (xs : List α) (n : ℕ) : List (List α) :=
  match xs, n with
  | [], _ => []
  | _ :: _, 0 => []
  | x :: xs', Nat.succ m =>
      (x :: xs').take (m + 1) :: chunk_list ((x :: xs').drop (m + 1)) (m + 1)
termination_by xs.length
decreasing_by
  simp only [List.length_drop, List.length_cons]
  omega

/-- Componentwise sum of two count triples, as accumulated by the
`correct += tc; predicted += tp; gold += tg` statements of the driver. -/
def addTriple (a b : ℕ × ℕ × ℕ) : ℕ × ℕ × ℕ :=
  (a.1 + b.1, a.2.1 + b.2.1, a.2.2 + b.2.2)

/-- The `max(..., key=lambda x: x[0])` of `sample_gen` (tgen.py lines
172-175): among the `tp_fp_fn` count triples of the trees in `chunk`
against `gold`, the first one whose F1 is maximal (Python's `max` keeps
the first maximal element); `none` on an empty chunk, where Python's
`max` would raise. -/
def bestCounts (gold : Tree) (chunk : List Tree) : Option (ℕ × ℕ × ℕ) :=
  match chunk.map (fun t => tp_fp_fn gold t) with
  | [] => none
  | c :: cs => some (cs.foldl (fun m x => if f1c m < f1c x then x else m) c)

/-- One iteration of the oracle-evaluation loop of `sample_gen` (tgen.py
lines 170-178): add the best-F1 tree's counts to the accumulator. -/
def oracleStep (acc : ℕ × ℕ × ℕ) (pr : Tree × List Tree) : ℕ × ℕ × ℕ :=
  match bestCounts pr.1 pr.2 with
  | some t => addTriple acc t
  | none => acc

/-- The oracle evaluation of `sample_gen` (tgen.py lines 163-180): pair
each gold tree with the chunk of `n` generated trees for the same
dialogue act, accumulate the counts of the best-F1 tree of each chunk,
and report precision/recall/F1 from the accumulated counts (the driver
calls `p_r_f1_from_counts(correct, gold, predicted)`). -/
def sampleOracleEval (golds gens : List Tree) (n : ℕ) : ℚ × ℚ × ℚ :=
  let acc := (golds.zip (chunk_list gens n)).foldl oracleStep (0, 0, 0)
  p_r_f1_from_counts acc.1 acc.2.2 acc.2.1

/-- The generation loop of `sample_gen` (tgen.py lines 157-160): for each
dialogue act, call the planner's `generate_tree` `n` times, each call
appending one sampled tree to the accumulating document (`gen da i` is
the tree appended by the `i`-th call for `da`). -/
def sampleGenLoop (gen : DA → ℕ → Tree) (n : ℕ) (das : List DA) : List Tree :=
  das.foldl (fun doc da => doc ++ (List.range n).map (fun i => gen da i)) []

/-- The evaluation counts of `asearch_gen` (tgen.py lines 235-240): sum
the `tp_fp_fn` triples of positionally paired (gold, generated) trees. -/
def asearchEvalCounts (pairs : List (Tree × Tree)) : ℕ × ℕ × ℕ :=
  pairs.foldl (fun acc pr => addTriple acc (tp_fp_fn pr.1 pr.2)) (0, 0, 0)

/-- The generate-and-evaluate branch of `asearch_gen` (tgen.py lines
227-242): generation iterates over `zip(das, eval_ttrees)` (one generated
tree per pair, `gen` abstracting the planner call with the gold tree
passed along for oracle reporting only), evaluation iterates over
`zip(eval_ttrees, gen_ttrees)`, and the node precision/recall/F1 are
reported from the accumulated counts. -/
def asearchGenEval (gen : DA → Tree → Tree) (das : List DA) (evals : List Tree) :
    ℚ × ℚ × ℚ :=
  let gens := (das.zip evals).map (fun pr => gen pr.1 pr.2)
  let acc := asearchEvalCounts (evals.zip gens)
  p_r_f1_from_counts acc.1 acc.2.2 acc.2.1

/-- A candidate generator at search time: a parent label bundle and the
still-uncovered dialogue-act slots yield a list of (child label bundle,
cost increment) candidates.  Unseen contexts yield the empty list. -/
abbrev CandGen := ℕ → DA → List (ℕ × ℚ)

/-- Modelled from the spec: a scored partial tree of the A* search
(`planner.ASearchPlanner` is not in the repository tree) — the tree built
so far, its cumulative cost (lower is better), and the residual
not-yet-realized slots of the dialogue act. -/
structure SearchState where
  tree : Tree
  cost : ℚ
  residual : DA

/-- The initial search state: a single root node with the whole dialogue
act still unrealized. -/
def initState (da : DA) : SearchState :=
  ⟨Tree.node 0 [], 0, da⟩

mutual

/-- All label bundles occurring in `t` (used for the canonical structural
signature of the closed set). -/
def treeLabels : Tree → List ℕ
  | .node l cs => l :: treeLabelsL cs

/-- Labels of a list of sibling subtrees. -/
def treeLabelsL : List Tree → List ℕ
  | [] => []
  | t :: ts => treeLabels t ++ treeLabelsL ts

end

/-- Insert into a sorted list of naturals. -/
def insSorted (x : ℕ) : List ℕ → List ℕ
  | [] => [x]
  | y :: ys => if x ≤ y then x :: y :: ys else y :: insSorted x ys

/-- Sort a list of naturals (insertion sort), so that the closed-set
signature is invariant under the derivation order. -/
def sortLabels (l : List ℕ) : List ℕ :=
  l.foldr insSorted []

/-- Modelled from the spec: the canonical structural signature of a
search state — the tree's label-bundle multiset plus the residual
dialogue act — keying the closed set. -/
def stateSig (s : SearchState) : List ℕ × DA :=
  (sortLabels (treeLabels s.tree), s.residual)

mutual

/-- Modelled from the spec: one-step expansions of a partial tree — for
every node, attach one new child per candidate the generator proposes for
that node's label and the residual dialogue act.  Each result carries the
new tree together with the applied candidate. -/
def expandTree (cg : CandGen) (res : DA) : Tree → List (Tree × ℕ × ℚ)
  | .node l cs =>
      ((cg l res).map (fun cand => (Tree.node l (cs ++ [Tree.node cand.1 []]), cand)))
      ++ (expandTreeL cg res cs).map (fun p => (Tree.node l p.1, p.2))

/-- Expansions happening inside one of the sibling subtrees. -/
def expandTreeL (cg : CandGen) (res : DA) : List Tree → List (List Tree × ℕ × ℚ)
  | [] => []
  | t :: ts =>
      (expandTree cg res t).map (fun p => (p.1 :: ts, p.2))
      ++ (expandTreeL cg res ts).map (fun p => (t :: p.1, p.2))

end

/-- Modelled from the spec: successor states of a search state — candidate
applied, cumulative cost updated, covered slot removed from the residual
dialogue act. -/
def expand (cg : CandGen) (s : SearchState) : List SearchState :=
  (expandTree cg s.residual s.tree).map
    (fun p => ⟨p.1, s.cost + p.2.2, s.residual.erase p.2.1⟩)

/-- Pop a lowest-cost entry from the frontier (min-priority queue),
returning it together with the remaining entries. -/
def popMin (fr : List SearchState) : Option (SearchState × List SearchState) :=
  match fr with
  | [] => none
  | s :: ss =>
      some (ss.foldl
        (fun acc x => if x.cost < acc.1.cost then (x, acc.1 :: acc.2) else (acc.1, x :: acc.2))
        (s, ([] : List SearchState)))

/-- Modelled from the spec: the best-first loop of
`planner.ASearchPlanner` (not in the repository tree).  Pop the
lowest-cost state; a state with empty residual dialogue act is a goal and
is returned immediately; otherwise push its not-yet-closed successors and
record its signature in the closed set, keeping the lowest-cost state
seen so far.  When the frontier empties before any goal is found (or the
fuel budget runs out), the best state seen so far is returned instead of
failing. -/
def asearchLoop (cg : CandGen) :
    ℕ → List SearchState → List (List ℕ × DA) → SearchState → SearchState
  | 0, _, _, best => best
  | fuel + 1, frontier, closed, best =>
    match popMin frontier with
    | none => best
    | some (s, rest) =>
      if s.residual = [] then s
      else
        asearchLoop cg fuel
          (rest ++ (expand cg s).filter (fun s2 => ! closed.contains (stateSig s2)))
          (stateSig s :: closed)
          (if s.cost < best.cost then s else best)

/-- Modelled from the spec: `ASearchPlanner.generate_tree(da, gen_doc, ...)`
(not in the repository tree) — run the A* search for `da` from the
single-root initial state and append the resulting tree to the
accumulating output document. -/
def generate_tree (cg : CandGen) (fuel : ℕ) (da : DA) (gen_doc : List Tree) : List Tree :=
  gen_doc ++ [(asearchLoop cg fuel [initState da] [] (initState da)).tree]

/-- A parsed command-line option: (option name such as "-p", argument). -/
abbrev Opt := String × String

/-- Python `getopt.short_has_arg`: `some true` when `c` occurs in the
option string followed by a colon, `some false` when it occurs without
one, `none` (a `GetoptError`) when it does not occur. -/
def short_has_arg (shortopts : List Char) (c : Char) : Option Bool :=
  match shortopts with
  | [] => none
  | s :: rest =>
      if c = s ∧ s ≠ ':' then some (rest.head? = some ':')
      else short_has_arg rest c

/-- Python `getopt.do_shorts`: consume one `-xyz` cluster.  An option
that takes an argument uses the rest of the cluster if nonempty,
otherwise the next command-line argument; an unknown option character is
a `GetoptError`. -/
def doShorts (shortopts : List Char) (opts : List Opt) :
    List Char → List String → Except String (List Opt × List String)
  | [], args => .ok (opts, args)
  | c :: rest, args =>
      match short_has_arg shortopts c with
      | none => .error ("option -" ++ String.mk [c] ++ " not recognized")
      | some true =>
          if rest.isEmpty then
            match args with
            | [] => .error ("option -" ++ String.mk [c] ++ " requires argument")
            | a :: args2 => .ok (opts ++ [(String.mk ['-', c], a)], args2)
          else .ok (opts ++ [(String.mk ['-', c], String.mk rest)], args)
      | some false => doShorts shortopts (opts ++ [(String.mk ['-', c], "")]) rest args

/-- The main loop of Python `getopt.getopt` with no long options (the
driver passes none): process leading `-x` arguments, stop at the first
non-option argument (or a bare `-`), treat `--` as an explicit
terminator, and fail on `--xxx` (no long options are defined). -/
def getoptLoop (shortopts : List Char) :
    ℕ → List Opt → List String → Except String (List Opt × List String)
  | 0, opts, args => .ok (opts, args)
  | _ + 1, opts, [] => .ok (opts, [])
  | fuel + 1, opts, a :: rest =>
      match a.data with
      | '-' :: c :: cs =>
          if c = '-' ∧ cs = [] then .ok (opts, rest)
          else if c = '-' then .error ("option --" ++ String.mk cs ++ " not recognized")
          else
            match doShorts shortopts opts (c :: cs) rest with
            | .error m => .error m
            | .ok (opts2, args2) => getoptLoop shortopts fuel opts2 args2
      | _ => .ok (opts, a :: rest)

/-- Python's `getopt.getopt(args, shortopts)` as called by the driver.
The fuel `args.length + 1` is enough for the loop, which consumes at
least one argument per iteration. -/
def getopt (shortopts : String) (args : List String) :
    Except String (List Opt × List String) :=
  getoptLoop shortopts.data (args.length + 1) [] args

/-- The six driver actions (tgen.py handler functions). -/
inductive Action where
  | candgen_train
  | logregrank_create_data
  | logregrank_train
  | percrank_train
  | sample_gen
  | asearch_gen
deriving DecidableEq

/-- Observable file-level effects of a driver action, in program order.
`exitUsage` covers both `sys.exit(__doc__)` and
`sys.exit('Invalid arguments.' + __doc__)` — both print the usage text
and abort. -/
inductive Effect where
  | exitUsage
  | getoptError (msg : String)
  | openDebug (f : String)
  | readCorpus (f : String)
  | readModel (f : String)
  | readConfig (f : String)
  | readData (f : String)
  | writeModel (f : String)
  | writeData (f : String)
  | writeTrees (f : String)
deriving DecidableEq

/-- True when every option named in `names` carries an integer argument
(the handlers apply Python `int` to `-p` / `-n` arguments while looping
over the parsed options, before the positional-count check). -/
def optsIntOk (names : List String) (opts : List Opt) : Bool :=
  opts.all (fun o => (! names.contains o.1) || o.2.toInt?.isSome)

/-- Option parsing phase of each handler: the `getopt` call with the
option string the source passes (tgen.py lines 48, 65, 97, 123, 191;
`logregrank_train` calls no `getopt`), plus the `int(...)` conversions
performed inside the option loops. -/
def actionParse : Action → List String → Except String (List Opt × List String)
  | .candgen_train, args =>
      match getopt "p:" args with
      | .error m => .error m
      | .ok r => if optsIntOk ["-p"] r.1 then .ok r else .error "invalid int literal"
  | .logregrank_create_data, args => getopt "h:" args
  | .logregrank_train, args => .ok ([], args)
  | .percrank_train, args => getopt "c:d:" args
  | .sample_gen, args =>
      match getopt "r:n:o:w:" args with
      | .error m => .error m
      | .ok r => if optsIntOk ["-n"] r.1 then .ok r else .error "invalid int literal"
  | .asearch_gen, args => getopt "e:d:" args

/-- Number of positional arguments each handler requires (tgen.py lines
54, 70, 84, 107, 139, 207). -/
def expectedCount : Action → ℕ
  | .candgen_train => 3
  | .logregrank_create_data => 5
  | .logregrank_train => 3
  | .percrank_train => 4
  | .sample_gen => 2
  | .asearch_gen => 3

/-- The last value given for option `name` (later occurrences overwrite
earlier ones in the handlers' option loops). -/
def lastOpt (opts : List Opt) (name : String) : Option String :=
  ((opts.filter (fun o => o.1 == name)).getLast?).map (fun o => o.2)

/-- Debug-output files opened while looping over the options, before the
positional-count check: `percrank_train` (tgen.py line 103) and
`asearch_gen` (line 201) call `file_stream(arg, mode='w')` for each `-d`. -/
def debugOpens : Action → List Opt → List Effect
  | .percrank_train, opts =>
      opts.filterMap (fun o => if o.1 == "-d" then some (.openDebug o.2) else none)
  | .asearch_gen, opts =>
      opts.filterMap (fun o => if o.1 == "-d" then some (.openDebug o.2) else none)
  | _, _ => []

/-- File-level effects of each handler once the positional-count check
has passed, in source order (reads and writes performed inside the
collaborator calls are summarized at the file level). -/
def okTrace : Action → List Opt → List String → List Effect
  | .candgen_train, _, files =>
      [.readCorpus (files.getD 0 ""), .readCorpus (files.getD 1 ""),
       .writeModel (files.getD 2 "")]
  | .logregrank_create_data, _, files =>
      [.readModel (files.getD 2 ""), .readConfig (files.getD 3 ""),
       .readCorpus (files.getD 1 ""), .readCorpus (files.getD 0 ""),
       .writeData (files.getD 4 "")]
  | .logregrank_train, _, files =>
      [.readConfig (files.getD 0 ""), .readData (files.getD 1 ""),
       .writeModel (files.getD 2 "")]
  | .percrank_train, _, files =>
      [.readConfig (files.getD 0 ""), .readCorpus (files.getD 1 ""),
       .readCorpus (files.getD 2 ""), .writeModel (files.getD 3 "")]
  | .sample_gen, opts, files =>
      [.readModel (files.getD 0 "")]
      ++ (match lastOpt opts "-r" with | some r => [.readModel r] | none => [])
      ++ [.readCorpus (files.getD 1 "")]
      ++ (match lastOpt opts "-o" with | some o => [.readCorpus o] | none => [])
      ++ (match lastOpt opts "-w" with | some w => [.writeTrees w] | none => [])
  | .asearch_gen, opts, files =>
      [.readModel (files.getD 0 ""), .readModel (files.getD 1 ""),
       .readCorpus (files.getD 2 "")]
      ++ (match lastOpt opts "-e" with | some e => [.readCorpus e] | none => [])

/-- The file-level effect trace of one handler invocation: option
parsing (a `GetoptError` or `ValueError` aborts with a traceback), debug
files opened in the option loop, then either the usage exit on a wrong
positional count or the handler's real work. -/
def actionTrace (a : Action) (args : List String) : List Effect :=
  match actionParse a args with
  | .error m => [.getoptError m]
  | .ok (opts, files) =>
      debugOpens a opts
      ++ (if files.length ≠ expectedCount a then [.exitUsage]
          else okTrace a opts files)

/-- The option-variable state accumulated by the `for opt, arg in opts`
loop of `asearch_gen` (tgen.py lines 197-205). -/
structure AsearchOpts where
  eval_file : Option String
  debug_out : Option String
  ttrees_out : Option String
  cfg_file : Option String
deriving DecidableEq

/-- One iteration of the option loop of `asearch_gen` (tgen.py lines
197-205): branches exist for `-e`, `-d`, `-w` and `-c`. -/
def asearchOptStep (st : AsearchOpts) (o : Opt) : AsearchOpts :=
  if o.1 = "-e" then { st with eval_file := some o.2 }
  else if o.1 = "-d" then { st with debug_out := some o.2 }
  else if o.1 = "-w" then { st with ttrees_out := some o.2 }
  else if o.1 = "-c" then { st with cfg_file := some o.2 }
  else st

/-- The option loop of `asearch_gen` over all parsed options. -/
def asearchOptsFold (opts : List Opt) : AsearchOpts :=
  opts.foldl asearchOptStep ⟨none, none, none, none⟩

/-- Outcome of the action dispatch: run a handler, or exit with the
unknown-action message. -/
inductive HandlerTarget where
  | run (a : Action)
  | unknownExit (msg : String)
deriving DecidableEq

/-- The `if action == ...` dispatch chain of `__main__` (tgen.py lines
261-275). -/
def dispatchAction (name : String) : HandlerTarget :=
  if name = "candgen_train" then .run .candgen_train
  else if name = "logregrank_create_data" then .run .logregrank_create_data
  else if name = "logregrank_train" then .run .logregrank_train
  else if name = "percrank_train" then .run .percrank_train
  else if name = "random_gen" then .run .sample_gen
  else if name = "asearch_gen" then .run .asearch_gen
  else .unknownExit ("ERROR: Unknown action: " ++ name)

/-- The action names documented in the module docstring's usage text
(tgen.py lines 9-27). -/
def docActions : List String :=
  ["candgen_train", "logregrank_create_data", "logregrank_train",
   "percrank_train", "sample_gen", "asearch_gen"]

/-- Result of the `__main__` block. -/
inductive MainResult where
  | usageExit
  | dispatched (target : HandlerTarget) (args : List String)
deriving DecidableEq

/-- The `__main__` block (tgen.py lines 251-275): seed the global random
number generator with the constant 1206, then check the argument count
and dispatch on the action name.  `entropy` stands for whatever ambient
randomness an unseeded run would start from; the source discards it by
calling `random.seed(1206)`, so the returned seed is constantly 1206.
The first component is the seed the dispatched handler runs under. -/
def runMain (argv : List String) (entropy : ℕ) : ℕ × MainResult :=
  let _ := entropy
  let seeded : ℕ := 1206
  (seeded,
    if argv.length < 3 then .usageExit
    else .dispatched (dispatchAction (argv.getD 1 "")) (argv.drop 2))

/-- The search loop on an empty frontier returns the best state seen so
far, whatever the fuel. -/
theorem asearchLoop_nil_frontier (cg : CandGen) :
    ∀ (fuel : ℕ) (closed : List (List ℕ × DA)) (best : SearchState),
      asearchLoop cg fuel [] closed best = best := by
  intro fuel closed best
  cases fuel with
  | zero => rfl
  | succ f => rfl

/-- Claim C1: for every input dialogue act, `generate_tree` appends
exactly one tree to the accumulating document (no dialogue act is
dropped), and when the candidate generator is starved — returning the
empty candidate set for every context, so that the frontier empties
before any goal is found on a nonempty dialogue act — the single-node
root tree is returned via the best-so-far fallback rather than failing. -/
theorem asearch_generate_tree_total :
    ∀ (cg : CandGen) (fuel : ℕ) (da : DA) (gen_doc : List Tree),
      (∃ t : Tree, generate_tree cg fuel da gen_doc = gen_doc ++ [t]) ∧
      generate_tree (fun _ _ => []) fuel da gen_doc = gen_doc ++ [Tree.node 0 []] := by
  intro cg fuel da gen_doc
  refine ⟨⟨_, rfl⟩, ?_⟩
  unfold generate_tree
  have hloop :
      asearchLoop (fun _ _ => []) fuel [initState da] [] (initState da) = initState da := by
    cases fuel with
    | zero => rfl
    | succ f =>
      cases da with
      | nil => rfl
      | cons d ds =>
        have hstep :
            asearchLoop (fun _ _ => []) (f + 1) [initState (d :: ds)] [] (initState (d :: ds))
              = asearchLoop (fun _ _ => []) f [] [stateSig (initState (d :: ds))]
                  (initState (d :: ds)) := by
          simp [asearchLoop, popMin, expand, expandTree, expandTreeL, initState, ite_self]
        rw [hstep, asearchLoop_nil_frontier]
  rw [hloop]
  rfl

/-- Claim C2, counterexample: with a sample count of 2 and a single
dialogue act, the output collection of the `sample_gen` generation loop
holds 2 trees, not the 1 tree per dialogue act the claim asserts. -/
theorem sample_gen_one_tree_per_da_cex :
    ¬ ((sampleGenLoop (fun _ _ => Tree.node 0 []) 2 [[0]]).length
        = ([[0]] : List DA).length) := by
  decide

/-- The `sample_gen` generation loop, fold form: the output document is
the concatenation, per dialogue act, of the `n` trees appended by the
`n` `generate_tree` calls. -/
theorem sampleGenLoop_eq_join :
    ∀ (gen : DA → ℕ → Tree) (n : ℕ) (das : List DA) (acc : List Tree),
      das.foldl (fun doc da => doc ++ (List.range n).map (fun i => gen da i)) acc
        = acc ++ (das.map (fun da => (List.range n).map (gen da))).flatten := by
  intro gen n das
  induction das with
  | nil => intro acc; simp
  | cons da rest ih =>
    intro acc
    simp only [List.foldl_cons, List.map_cons, List.flatten_cons]
    rw [ih]
    simp [List.append_assoc]

/-- Claim C2, amended: the driver's loop (tgen.py lines 158-160) calls
the sampling planner's `generate_tree` `n` times per dialogue act and
each call appends one sampled tree, so the output collection receives all
`n` sampled trees per dialogue act — `n * |das|` trees in total — for any
ranker choice; a single best tree per dialogue act is selected only later,
by F1 inside the oracle evaluation, never by ranker score in the output. -/
theorem sample_gen_appends_n_per_da :
    ∀ (gen : DA → ℕ → Tree) (n : ℕ) (das : List DA),
      sampleGenLoop gen n das = (das.map (fun da => (List.range n).map (gen da))).flatten ∧
      (sampleGenLoop gen n das).length = n * das.length := by
  intro gen n das
  have h0 : sampleGenLoop gen n das
      = (das.map (fun da => (List.range n).map (gen da))).flatten := by
    simpa [sampleGenLoop] using sampleGenLoop_eq_join gen n das []
  refine ⟨h0, ?_⟩
  rw [h0]
  clear h0
  induction das with
  | nil => simp
  | cons da rest ih =>
    simp only [List.map_cons, List.flatten_cons, List.length_append, List.length_map,
      List.length_range, List.length_cons, ih]
    ring

/-- Claim C5: `tp_fp_fn(gold_tree, generated_tree)` is exactly the
(true-positive, false-positive, false-negative) triple over the trees'
(label bundle, parent-label-bundle) pair sets: the first component counts
generated pairs also in gold, the second counts generated pairs absent
from gold, the third counts gold pairs absent from the generated tree,
and the counts add up to the generated and gold set sizes. -/
theorem tp_fp_fn_pair_counts :
    ∀ (gold_tree gen_tree : Tree),
      (tp_fp_fn gold_tree gen_tree).1
          = ((treePairSet gen_tree).filter (fun x => x ∈ treePairSet gold_tree)).card ∧
      (tp_fp_fn gold_tree gen_tree).2.1
          = ((treePairSet gen_tree).filter (fun x => x ∉ treePairSet gold_tree)).card ∧
      (tp_fp_fn gold_tree gen_tree).2.2
          = ((treePairSet gold_tree).filter (fun x => x ∉ treePairSet gen_tree)).card ∧
      (tp_fp_fn gold_tree gen_tree).1 + (tp_fp_fn gold_tree gen_tree).2.1
          = (treePairSet gen_tree).card ∧
      (tp_fp_fn gold_tree gen_tree).1 + (tp_fp_fn gold_tree gen_tree).2.2
          = (treePairSet gold_tree).card := by
  intro gold gen
  simp only [tp_fp_fn]
  refine ⟨?_, ?_, ?_, ?_, ?_⟩
  · rw [Finset.filter_mem_eq_inter]
  · rw [Finset.sdiff_eq_filter]
  · rw [Finset.sdiff_eq_filter]
  · exact Finset.card_inter_add_card_sdiff _ _
  · rw [Finset.inter_comm]
    exact Finset.card_inter_add_card_sdiff _ _

/-- Claim C6: the boundary conventions of `p_r_f1_from_counts` — all
three scores are 1 when all counts are zero (both sets empty), and all
three are 0 (not NaN) when there are no true positives but the gold and
predicted sets are nonempty. -/
theorem p_r_f1_from_counts_boundary :
    p_r_f1_from_counts 0 0 0 = (1, 1, 1) ∧
    ∀ g p : ℕ, 0 < g → 0 < p → p_r_f1_from_counts 0 g p = (0, 0, 0) := by
  constructor
  · norm_num [p_r_f1_from_counts]
  · intro g p hg hp
    have hg' : g ≠ 0 := Nat.pos_iff_ne_zero.mp hg
    simp [p_r_f1_from_counts, hg']

/-- Witness for C6 at `g = 1`, `p = 1`. -/
theorem p_r_f1_from_counts_boundary_witness :
    (0 < 1 ∧ 0 < 1) ∧ p_r_f1_from_counts 0 1 1 = (0, 0, 0) :=
  ⟨⟨Nat.one_pos, Nat.one_pos⟩, p_r_f1_from_counts_boundary.2 1 1 Nat.one_pos Nat.one_pos⟩

/-- Claim C4: the usage text and the handler's option loop advertise `-c`
(planner config) and `-w` (output trees) for `asearch_gen`, but the
`getopt` call at tgen.py line 191 passes only `'e:d:'`, so supplying
either option on the command line raises an uncaught `GetoptError`
instead of parsing the config / writing the trees. -/
theorem asearch_gen_config_option_rejected :
    getopt "e:d:" ["-c", "config.py", "candgen.model", "percrank.model", "test.das"]
        = .error "option -c not recognized" ∧
    getopt "e:d:" ["-w", "out.yaml", "candgen.model", "percrank.model", "test.das"]
        = .error "option -w not recognized" :=
  ⟨rfl, rfl⟩

/-- Claim C8: the `__main__` block seeds the random number generator with
the fixed constant 1206 before dispatching, so the run outcome does not
depend on the ambient entropy — two invocations with the same argument
vector agree — and every dispatched handler runs under seed 1206. -/
theorem main_seeded_deterministic :
    ∀ (argv : List String) (e1 e2 : ℕ),
      runMain argv e1 = runMain argv e2 ∧ (runMain argv e1).1 = 1206 := by
  intro argv e1 e2
  exact ⟨rfl, rfl⟩

/-- Claim C9: the action name `sample_gen` appears in the module
docstring's usage text, yet the dispatch chain sends it to the
unknown-action exit; the sampling handler is reached exactly for the
command-line name `random_gen`. -/
theorem sample_gen_name_not_dispatched :
    "sample_gen" ∈ docActions ∧
    dispatchAction "sample_gen" = .unknownExit "ERROR: Unknown action: sample_gen" ∧
    dispatchAction "random_gen" = .run Action.sample_gen ∧
    ∀ name : String, name ≠ "random_gen" → dispatchAction name ≠ .run Action.sample_gen := by
  refine ⟨by decide, by decide, by decide, ?_⟩
  intro name hne
  unfold dispatchAction
  split_ifs with h1 h2 h3 h4 h5 <;> simp_all

/-- Witness for C9 at the concrete name `sample_gen`. -/
theorem sample_gen_name_not_dispatched_witness :
    ("sample_gen" : String) ≠ "random_gen" ∧
    dispatchAction "sample_gen" ≠ .run Action.sample_gen :=
  ⟨by decide, sample_gen_name_not_dispatched.2.2.2 "sample_gen" (by decide)⟩

/-- The strict-replacement fold implementing Python's `max(..., key=...)`
returns the start value or a list element, is at least the start value
under the key, and dominates every list element under the key. -/
theorem foldl_maxF1_spec :
    ∀ (cs : List (ℕ × ℕ × ℕ)) (c : ℕ × ℕ × ℕ),
      (cs.foldl (fun m z => if f1c m < f1c z then z else m) c = c
        ∨ cs.foldl (fun m z => if f1c m < f1c z then z else m) c ∈ cs) ∧
      f1c c ≤ f1c (cs.foldl (fun m z => if f1c m < f1c z then z else m) c) ∧
      ∀ x ∈ cs, f1c x ≤ f1c (cs.foldl (fun m z => if f1c m < f1c z then z else m) c) := by
  intro cs
  induction cs with
  | nil =>
    intro c
    exact ⟨Or.inl rfl, le_refl _, by simp⟩
  | cons x xs ih =>
    intro c
    simp only [List.foldl_cons]
    obtain ⟨hmem, hle, hall⟩ := ih (if f1c c < f1c x then x else c)
    have hcstep : f1c c ≤ f1c (if f1c c < f1c x then x else c) := by
      split
      · exact le_of_lt ‹_›
      · exact le_refl _
    have hxstep : f1c x ≤ f1c (if f1c c < f1c x then x else c) := by
      split
      · exact le_refl _
      · exact le_of_not_lt ‹_›
    refine ⟨?_, le_trans hcstep hle, ?_⟩
    · rcases hmem with h | h
      · rw [h]
        split
        · exact Or.inr (List.mem_cons_self _ _)
        · exact Or.inl rfl
      · exact Or.inr (List.mem_cons_of_mem _ h)
    · intro y hy
      rcases List.mem_cons.mp hy with rfl | hy'
      · exact le_trans hxstep hle
      · exact hall y hy'

/-- On a nonempty chunk, `bestCounts` returns the counts of a member tree
whose F1 against the gold tree dominates every tree of the chunk. -/
theorem bestCounts_spec :
    ∀ (gold : Tree) (chunk : List Tree), chunk ≠ [] →
      ∃ sel, sel ∈ chunk ∧ bestCounts gold chunk = some (tp_fp_fn gold sel) ∧
        ∀ t ∈ chunk, f1c (tp_fp_fn gold t) ≤ f1c (tp_fp_fn gold sel) := by
  intro gold chunk hne
  cases chunk with
  | nil => exact absurd rfl hne
  | cons t ts =>
    obtain ⟨hmem, hle, hall⟩ :=
      foldl_maxF1_spec (ts.map (fun u => tp_fp_fn gold u)) (tp_fp_fn gold t)
    rcases hmem with h | h
    · refine ⟨t, List.mem_cons_self _ _, ?_, ?_⟩
      · simp only [bestCounts, List.map_cons]
        rw [h]
      · intro u hu
        rcases List.mem_cons.mp hu with rfl | hu'
        · exact le_refl _
        · have := hall (tp_fp_fn gold u) (List.mem_map_of_mem _ hu')
          rw [h] at this
          exact this
    · rcases List.mem_map.mp h with ⟨sel, hsel, hm⟩
      refine ⟨sel, List.mem_cons_of_mem _ hsel, ?_, ?_⟩
      · simp only [bestCounts, List.map_cons]
        rw [← hm]
      · intro u hu
        rcases List.mem_cons.mp hu with rfl | hu'
        · rw [← hm] at hle
          exact hle
        · have := hall (tp_fp_fn gold u) (List.mem_map_of_mem _ hu')
          rw [hm]
          exact this

/-- Every chunk produced by `chunk_list` is nonempty. -/
theorem chunk_list_ne_nil {α : Type} :
    ∀ (xs : List α) (n : ℕ), ∀ c ∈ chunk_list xs n, c ≠ [] := by
  intro xs n
  induction xs, n using chunk_list.induct with
  | case1 n => simp [chunk_list]
  | case2 x xs' => simp [chunk_list]
  | case3 x xs' m ih =>
    intro c hc
    rw [chunk_list] at hc
    rcases List.mem_cons.mp hc with rfl | hc'
    · simp
    · exact ih c hc'

/-- Shifting the accumulator through the oracle-evaluation fold. -/
theorem oracle_foldl_shift :
    ∀ (ps : List (Tree × List Tree)) (z : ℕ × ℕ × ℕ),
      ps.foldl oracleStep z = addTriple z (ps.foldl oracleStep (0, 0, 0)) := by
  intro ps
  induction ps with
  | nil =>
    intro z
    obtain ⟨a, b, c⟩ := z
    simp [addTriple]
  | cons pr ps ih =>
    intro z
    simp only [List.foldl_cons]
    rw [ih (oracleStep z pr), ih (oracleStep (0, 0, 0) pr)]
    obtain ⟨a, b, c⟩ := z
    cases hbc : bestCounts pr.1 pr.2 <;>
      simp [oracleStep, hbc, addTriple, Nat.add_assoc]

/-- The oracle-evaluation fold accumulates, pair by pair, the counts of a
chunk member whose F1 against the paired gold tree is maximal. -/
theorem oracle_accum_spec :
    ∀ (ps : List (Tree × List Tree)), (∀ pr ∈ ps, pr.2 ≠ []) →
      ∃ sels : List (ℕ × ℕ × ℕ),
        List.Forall₂ (fun (pr : Tree × List Tree) (t : ℕ × ℕ × ℕ) =>
          ∃ sel, sel ∈ pr.2 ∧ t = tp_fp_fn pr.1 sel ∧
            ∀ u ∈ pr.2, f1c (tp_fp_fn pr.1 u) ≤ f1c t) ps sels ∧
        ps.foldl oracleStep (0, 0, 0)
          = ((sels.map (fun t => t.1)).sum,
             (sels.map (fun t => t.2.1)).sum,
             (sels.map (fun t => t.2.2)).sum) := by
  intro ps
  induction ps with
  | nil =>
    intro _
    exact ⟨[], List.Forall₂.nil, rfl⟩
  | cons pr ps ih =>
    intro h
    obtain ⟨sels, hf, hacc⟩ := ih (fun q hq => h q (List.mem_cons_of_mem _ hq))
    obtain ⟨sel, hmem, hbc, hbest⟩ := bestCounts_spec pr.1 pr.2 (h pr (List.mem_cons_self _ _))
    refine ⟨tp_fp_fn pr.1 sel :: sels,
      List.Forall₂.cons ⟨sel, hmem, rfl, hbest⟩ hf, ?_⟩
    simp only [List.foldl_cons]
    rw [oracle_foldl_shift, hacc]
    simp [oracleStep, hbc, addTriple]

/-- Claim C3: in the oracle evaluation of `sample_gen`, each gold tree is
paired with its chunk of `n` generated trees; from every chunk a tree of
maximal F1 against the paired gold tree is selected, its counts are
accumulated, and the reported corpus-level precision/recall/F1 are
`p_r_f1_from_counts` of the accumulated counts. -/
theorem sample_gen_oracle_eval_best_f1 :
    ∀ (golds gens : List Tree) (n : ℕ),
      ∃ sels : List (ℕ × ℕ × ℕ),
        List.Forall₂ (fun (pr : Tree × List Tree) (t : ℕ × ℕ × ℕ) =>
          ∃ sel, sel ∈ pr.2 ∧ t = tp_fp_fn pr.1 sel ∧
            ∀ u ∈ pr.2, f1c (tp_fp_fn pr.1 u) ≤ f1c t)
          (golds.zip (chunk_list gens n)) sels ∧
        sampleOracleEval golds gens n
          = p_r_f1_from_counts
              ((sels.map (fun t => t.1)).sum)
              ((sels.map (fun t => t.2.2)).sum)
              ((sels.map (fun t => t.2.1)).sum) := by
  intro golds gens n
  have hne : ∀ pr ∈ golds.zip (chunk_list gens n), pr.2 ≠ [] := by
    intro pr hpr
    obtain ⟨g, c⟩ := pr
    exact chunk_list_ne_nil gens n c (List.of_mem_zip hpr).2
  obtain ⟨sels, hf, hacc⟩ := oracle_accum_spec _ hne
  refine ⟨sels, hf, ?_⟩
  show p_r_f1_from_counts
      ((golds.zip (chunk_list gens n)).foldl oracleStep (0, 0, 0)).1
      ((golds.zip (chunk_list gens n)).foldl oracleStep (0, 0, 0)).2.2
      ((golds.zip (chunk_list gens n)).foldl oracleStep (0, 0, 0)).2.1 = _
  rw [hacc]

/-- Effects emitted while looping over the parsed options are only
debug-file opens. -/
theorem debugOpens_only_open :
    ∀ (a : Action) (opts : List Opt) (e : Effect),
      e ∈ debugOpens a opts → ∃ f, e = Effect.openDebug f := by
  intro a opts e he
  cases a <;> simp only [debugOpens] at he
  case percrank_train | asearch_gen =>
    rcases List.mem_filterMap.mp he with ⟨o, _, hoe⟩
    by_cases hd : o.1 == "-d"
    · rw [if_pos hd] at hoe
      exact ⟨o.2, (Option.some_inj.mp hoe).symm⟩
    · rw [if_neg hd] at hoe
      cases hoe
  all_goals cases he

/-- Claim C7: whenever a driver action's option parsing succeeds but the
positional argument count is wrong, the handler emits the usage exit and
nothing else beyond the debug-file opens of the option loop — in
particular it reads no corpus, config or model file and writes no model,
data or tree file, so a misuse never leaves a partially written model. -/
theorem cli_wrong_arg_count_exits_without_io :
    ∀ (a : Action) (args : List String) (opts : List Opt) (files : List String),
      actionParse a args = .ok (opts, files) →
      files.length ≠ expectedCount a →
      actionTrace a args = debugOpens a opts ++ [Effect.exitUsage] ∧
      ∀ e ∈ actionTrace a args, e = Effect.exitUsage ∨ ∃ f, e = Effect.openDebug f := by
  intro a args opts files hp hc
  have ht : actionTrace a args = debugOpens a opts ++ [Effect.exitUsage] := by
    unfold actionTrace
    rw [hp]
    dsimp only
    rw [if_pos hc]
  refine ⟨ht, ?_⟩
  intro e he
  rw [ht] at he
  rcases List.mem_append.mp he with h1 | h2
  · exact Or.inr (debugOpens_only_open a opts e h1)
  · left
    simpa using h2

/-- Witness for C7: `candgen_train` invoked with a single positional
argument (three are required). -/
theorem cli_wrong_arg_count_exits_without_io_witness :
    actionParse Action.candgen_train ["x"] = .ok ([], ["x"]) ∧
    (["x"] : List String).length ≠ expectedCount Action.candgen_train ∧
    (actionTrace Action.candgen_train ["x"]
        = debugOpens Action.candgen_train [] ++ [Effect.exitUsage] ∧
      ∀ e ∈ actionTrace Action.candgen_train ["x"],
        e = Effect.exitUsage ∨ ∃ f, e = Effect.openDebug f) :=
  ⟨rfl, by decide,
    cli_wrong_arg_count_exits_without_io Action.candgen_train ["x"] [] ["x"] rfl (by decide)⟩

/-- Zipping only sees the first `min` elements of either list. -/
theorem zip_take_min {α β : Type} :
    ∀ (xs : List α) (ys : List β),
      xs.zip ys
        = (xs.take (min xs.length ys.length)).zip (ys.take (min xs.length ys.length)) := by
  intro xs
  induction xs with
  | nil => intro ys; simp
  | cons x xs ih =>
    intro ys
    cases ys with
    | nil => simp
    | cons y ys =>
      simp only [List.zip_cons_cons, List.length_cons, Nat.succ_min_succ, List.take_succ_cons]
      rw [← ih ys]

/-- Zipping truncates the left list to the right list's length. -/
theorem zip_take_left' {α β : Type} :
    ∀ (xs : List α) (ys : List β), xs.zip ys = (xs.take ys.length).zip ys := by
  intro xs
  induction xs with
  | nil => intro ys; simp
  | cons x xs ih =>
    intro ys
    cases ys with
    | nil => simp
    | cons y ys =>
      simp only [List.zip_cons_cons, List.length_cons, List.take_succ_cons]
      rw [← ih ys]

/-- Claim C10: both evaluation loops pair gold and generated items by
position via `zip`, which yields `min` pairs and raises no error on a
length mismatch: the search-generation evaluation is unchanged when both
lists are truncated to the shorter length, and the sampling oracle
evaluation is unchanged when the gold list is truncated to the number of
chunks — the surplus items are silently excluded from the counts. -/
theorem eval_pairs_truncate_surplus :
    ∀ (gen : DA → Tree → Tree) (das : List DA) (evals : List Tree)
      (golds gens : List Tree) (n : ℕ),
      (das.zip evals).length = min das.length evals.length ∧
      asearchGenEval gen das evals
        = asearchGenEval gen (das.take (min das.length evals.length))
            (evals.take (min das.length evals.length)) ∧
      sampleOracleEval golds gens n
        = sampleOracleEval (golds.take (chunk_list gens n).length) gens n := by
  intro gen das evals golds gens n
  refine ⟨List.length_zip _ _, ?_, ?_⟩
  · set m := min das.length evals.length with hm
    have h1 : das.zip evals = (das.take m).zip (evals.take m) := zip_take_min das evals
    have hglen : ((das.zip evals).map (fun pr => gen pr.1 pr.2)).length = m := by
      simp [List.length_zip, hm]
    have h2 : evals.zip ((das.zip evals).map (fun pr => gen pr.1 pr.2))
        = (evals.take m).zip ((das.zip evals).map (fun pr => gen pr.1 pr.2)) := by
      conv_lhs => rw [zip_take_left']
      rw [hglen]
    unfold asearchGenEval
    rw [← h1]
    dsimp only
    rw [h2]
  · have h3 : golds.zip (chunk_list gens n)
        = (golds.take (chunk_list gens n).length).zip (chunk_list gens n) :=
      zip_take_left' golds (chunk_list gens n)
    unfold sampleOracleEval
    dsimp only
    rw [← h3]

/-- Options produced by `doShorts` were in the accumulator already or
carry a name drawn from the short-option string. -/
theorem doShorts_cons (so : List Char) (opts : List Opt) (c : Char) (rest : List Char)
    (args : List String) :
    doShorts so opts (c :: rest) args
      = match short_has_arg so c with
        | none => .error ("option -" ++ String.mk [c] ++ " not recognized")
        | some true =>
            if rest.isEmpty then
              match args with
              | [] => .error ("option -" ++ String.mk [c] ++ " requires argument")
              | a :: args2 => .ok (opts ++ [(String.mk ['-', c], a)], args2)
            else .ok (opts ++ [(String.mk ['-', c], String.mk rest)], args)
        | some false => doShorts so (opts ++ [(String.mk ['-', c], "")]) rest args := rfl

theorem doShorts_names (so : List Char) :
    ∀ (optchars : List Char) (args : List String) (opts0 opts : List Opt) (files : List String),
      doShorts so opts0 optchars args = .ok (opts, files) →
      ∀ o ∈ opts, o ∈ opts0 ∨ ∃ c, (short_has_arg so c).isSome ∧ o.1 = String.mk ['-', c] := by
  intro optchars
  induction optchars with
  | nil =>
    intro args opts0 opts files h o ho
    simp only [doShorts, Except.ok.injEq, Prod.mk.injEq] at h
    obtain ⟨rfl, rfl⟩ := h
    exact Or.inl ho
  | cons c rest ih =>
    intro args opts0 opts files h o ho
    rw [doShorts_cons] at h
    cases hsa : short_has_arg so c with
    | none =>
      rw [hsa] at h
      cases h
    | some b =>
      rw [hsa] at h
      cases b with
      | false =>
        rcases ih args (opts0 ++ [(String.mk ['-', c], "")]) opts files h o ho with h1 | h2
        · rcases List.mem_append.mp h1 with h3 | h4
          · exact Or.inl h3
          · right
            refine ⟨c, by rw [hsa]; rfl, ?_⟩
            have ho4 : o = (String.mk ['-', c], "") := by simpa using h4
            rw [ho4]
        · exact Or.inr h2
      | true =>
        by_cases hre : rest.isEmpty
        · rw [if_pos hre] at h
          cases args with
          | nil => cases h
          | cons a args2 =>
            simp only [Except.ok.injEq, Prod.mk.injEq] at h
            obtain ⟨rfl, rfl⟩ := h
            rcases List.mem_append.mp ho with h3 | h4
            · exact Or.inl h3
            · right
              refine ⟨c, by rw [hsa]; rfl, ?_⟩
              have ho4 : o = (String.mk ['-', c], a) := by simpa using h4
              rw [ho4]
        · rw [if_neg hre] at h
          simp only [Except.ok.injEq, Prod.mk.injEq] at h
          obtain ⟨rfl, rfl⟩ := h
          rcases List.mem_append.mp ho with h3 | h4
          · exact Or.inl h3
          · right
            refine ⟨c, by rw [hsa]; rfl, ?_⟩
            have ho4 : o = (String.mk ['-', c], String.mk rest) := by simpa using h4
            rw [ho4]

/-- Options produced by the `getopt` loop carry names drawn from the
short-option string. -/
theorem getoptLoop_names (so : List Char) :
    ∀ (fuel : ℕ) (opts0 : List Opt) (args : List String) (opts : List Opt) (files : List String),
      getoptLoop so fuel opts0 args = .ok (opts, files) →
      ∀ o ∈ opts, o ∈ opts0 ∨ ∃ c, (short_has_arg so c).isSome ∧ o.1 = String.mk ['-', c] := by
  intro fuel
  induction fuel with
  | zero =>
    intro opts0 args opts files h o ho
    simp only [getoptLoop, Except.ok.injEq, Prod.mk.injEq] at h
    obtain ⟨rfl, rfl⟩ := h
    exact Or.inl ho
  | succ f ih =>
    intro opts0 args opts files h o ho
    cases args with
    | nil =>
      simp only [getoptLoop, Except.ok.injEq, Prod.mk.injEq] at h
      obtain ⟨rfl, -⟩ := h
      exact Or.inl ho
    | cons a rest =>
      rw [getoptLoop] at h
      split at h
      · split at h
        · simp only [Except.ok.injEq, Prod.mk.injEq] at h
          obtain ⟨rfl, -⟩ := h
          exact Or.inl ho
        · split at h
          · cases h
          · split at h
            · cases h
            · rename_i opts2 args2 heq
              rcases ih opts2 args2 opts files h o ho with h1 | h2
              · exact doShorts_names so _ _ opts0 opts2 args2 heq o h1
              · exact Or.inr h2
      · simp only [Except.ok.injEq, Prod.mk.injEq] at h
        obtain ⟨rfl, -⟩ := h
        exact Or.inl ho

/-- A character recognized by the option string `'e:d:'` is `e` or `d`. -/
theorem short_has_arg_ed :
    ∀ c : Char, (short_has_arg ("e:d:".data) c).isSome → c = 'e' ∨ c = 'd' := by
  intro c h
  have hdata : ("e:d:".data) = ['e', ':', 'd', ':'] := rfl
  rw [hdata] at h
  by_cases he : c = 'e'
  · exact Or.inl he
  · by_cases hd : c = 'd'
    · exact Or.inr hd
    · exfalso
      simp [short_has_arg, he, hd] at h

/-- The `-c` and `-w` branches of `asearch_gen`'s option loop are dead
code: under `getopt 'e:d:'` every successfully parsed option is `-e` or
`-d`, so `cfg_file` and the output-trees filename can never be set. -/
theorem asearch_gen_cfg_w_unreachable :
    ∀ (args : List String) (opts : List Opt) (files : List String),
      getopt "e:d:" args = .ok (opts, files) →
      (asearchOptsFold opts).cfg_file = none ∧ (asearchOptsFold opts).ttrees_out = none := by
  intro args opts files h
  have hnames : ∀ o ∈ opts, o.1 = "-e" ∨ o.1 = "-d" := by
    intro o ho
    rcases getoptLoop_names ("e:d:".data) (args.length + 1) [] args opts files h o ho with
      h1 | ⟨c, hc, hn⟩
    · cases h1
    · rcases short_has_arg_ed c hc with rfl | rfl
      · exact Or.inl hn
      · exact Or.inr hn
  have hfold : ∀ (l : List Opt) (st : AsearchOpts), (∀ o ∈ l, o.1 = "-e" ∨ o.1 = "-d") →
      (l.foldl asearchOptStep st).cfg_file = st.cfg_file ∧
      (l.foldl asearchOptStep st).ttrees_out = st.ttrees_out := by
    intro l
    induction l with
    | nil => intro st _; exact ⟨rfl, rfl⟩
    | cons o l ihl =>
      intro st hl
      simp only [List.foldl_cons]
      obtain ⟨hc, ht⟩ := ihl (asearchOptStep st o) (fun q hq => hl q (List.mem_cons_of_mem _ hq))
      have hstep : (asearchOptStep st o).cfg_file = st.cfg_file ∧
          (asearchOptStep st o).ttrees_out = st.ttrees_out := by
        rcases hl o (List.mem_cons_self _ _) with he | hd
        · constructor <;> simp [asearchOptStep, he]
        · constructor <;> simp [asearchOptStep, hd]
      exact ⟨by rw [hc, hstep.1], by rw [ht, hstep.2]⟩
  have := hfold opts ⟨none, none, none, none⟩ hnames
  exact ⟨this.1, this.2⟩

end TGen
